import Mathlib

/-!
Verification of the radial multi-focus HSL adjustment engine of
`src/ImgCurv.py` (function `apply_circular_gradient_hsl_curves`).

The per-pixel numeric kernel is embedded over an arbitrary linear ordered
field with a floor (instantiated at the rationals for executable checks and
at the reals where the Euclidean distance needs a square root).  Python
float arithmetic is idealised as exact field arithmetic; the Python float
modulo `a % m` is `a - m * floor (a / m)`.
-/

variable {α : Type} [LinearOrderedField α] [FloorRing α]

/-- Embedding of `np.clip(v, lo, hi)` (lines 76, 79, 82, 107, 108 of `ImgCurv.py`). -/
def clip (v lo hi : α) : α := min (max v lo) hi

/-- Python float modulo `a % m = a - m * floor (a / m)`; for `m > 0` the
result lies in the half-open interval from `0` to `m` (lines 104, 119). -/
def pymod (a m : α) : α := a - m * (⌊a / m⌋ : α)

/-- Embedding of `rgb_to_hsl` (lines 39-56 of `ImgCurv.py`): hue in degrees computed from
the maximal channel by the 60-degree sector formula, saturation from the
chroma, lightness as the mid-range.  The achromatic case returns hue 0 and
saturation 0. -/
def rgb_to_hsl (r g b : α) : α × α × α :=
  let max_val := max r (max g b)
  let min_val := min r (min g b)
  let l := (max_val + min_val) / 2
  if max_val = min_val then (0, 0, l)
  else
    let d := max_val - min_val
    let s := if l > 1 / 2 then d / (2 - max_val - min_val) else d / (max_val + min_val)
    let h :=
      if max_val = r then (g - b) / d + (if g < b then 0 else 6)
      else if max_val = g then (b - r) / d + 2
      else if max_val = b then (r - g) / d + 4
      else 0
    (h / 6 * 360, s, l)

/-- Embedding of `hsl_to_rgb` (lines 113-127 of `ImgCurv.py`): chroma / intermediate /
match construction; the intermediate value `x` is computed from the incoming
hue BEFORE the hue is reduced modulo 360 (line 115 precedes line 119), and
the result is scaled to the 0-255 range. -/
def hsl_to_rgb (h s l : α) : α × α × α :=
  let c := (1 - |2 * l - 1|) * s
  let x := c * (1 - |pymod (h / 60) 2 - 1|)
  let m := l - c / 2
  let h2 := pymod h 360
  let rgb : α × α × α :=
    if 0 ≤ h2 ∧ h2 < 60 then (c, x, 0)
    else if 60 ≤ h2 ∧ h2 < 120 then (x, c, 0)
    else if 120 ≤ h2 ∧ h2 < 180 then (0, c, x)
    else if 180 ≤ h2 ∧ h2 < 240 then (0, x, c)
    else if 240 ≤ h2 ∧ h2 < 300 then (x, 0, c)
    else if 300 ≤ h2 ∧ h2 < 360 then (c, 0, x)
    else (0, 0, 0)
  ((rgb.1 + m) * 255, (rgb.2.1 + m) * 255, (rgb.2.2 + m) * 255)

/-- The global adjustment parameters of `apply_circular_gradient_hsl_curves`
(lines 9-14 of `ImgCurv.py`). -/
structure AdjustConfig (β : Type) where
  max_hue_shift_deg : β
  max_saturation_adjust : β
  max_lightness_adjust : β
  red_mix_hue_deg : β
  blue_mix_hue_deg : β
  secondary_mix_factor : β

/-- The per-pixel adjustment loop body (lines 89-110 of `ImgCurv.py`), with
the two influence weights read off from the precomputed weight maps passed
in as `wr` and `wb`; `total` is `total_weight_influence` of line 82
evaluated at this pixel.  The local `hue_mix_factor` (line 99) is computed
and never used afterwards, exactly as in the source. -/
def adjustPixel (cfg : AdjustConfig α) (wr wb h s l : α) : α × α × α :=
  let total := clip (wr + wb) 0 1
  let hue_mix_factor := wr * cfg.secondary_mix_factor + wb * cfg.secondary_mix_factor
  let target_hue := if wr > wb then cfg.red_mix_hue_deg else cfg.blue_mix_hue_deg
  let h_adjusted := pymod (h + (target_hue - h) * total * (cfg.max_hue_shift_deg / 360)) 360
  let s_adjusted := clip (s + total * cfg.max_saturation_adjust * (if wr > wb then 1 else -1)) 0 1
  let l_adjusted := clip (l + total * cfg.max_lightness_adjust * (if wr > wb then 1 else -1)) 0 1
  (h_adjusted, s_adjusted, l_adjusted)

/-- The store of one channel into the `uint8` output buffer (lines 129-132
of `ImgCurv.py`): the numpy float-to-uint8 cast truncates toward zero and
wraps modulo 256; on the non-negative channel values the program produces,
truncation toward zero is the floor. -/
def quantize (q : ℚ) : ℕ := (⌊q⌋).toNat % 256

/-- One pixel of the whole pipeline after the weight maps are known:
normalize, convert to HSL, adjust, convert back, store as `uint8`
(lines 58-62, 84-110, 129-132 of `ImgCurv.py`). -/
def pipelinePixel (cfg : AdjustConfig ℚ) (wr wb r g b : ℚ) : ℕ × ℕ × ℕ :=
  let hsl := rgb_to_hsl r g b
  let adj := adjustPixel cfg wr wb hsl.1 hsl.2.1 hsl.2.2
  let rgb := hsl_to_rgb adj.1 adj.2.1 adj.2.2
  (quantize rgb.1, quantize rgb.2.1, quantize rgb.2.2)

/-- Euclidean pixel distance (lines 75 and 78 of `ImgCurv.py`). -/
noncomputable def euclidDist (x y cx cy : ℤ) : ℝ :=
  Real.sqrt (((x : ℝ) - (cx : ℝ)) ^ 2 + ((y : ℝ) - (cy : ℝ)) ^ 2)

/-- The influence weight as a function of the distance value
(lines 76 and 79 of `ImgCurv.py`): `clip (1 - d / R) 0 1`. -/
def weightOfDist (d R : α) : α := clip (1 - d / R) 0 1

/-- The influence weight of a focus centered at `(cx, cy)` with radius `R`
at pixel `(x, y)` (lines 76 and 79 of `ImgCurv.py`). -/
noncomputable def influenceWeight (x y cx cy : ℤ) (R : ℝ) : ℝ :=
  weightOfDist (euclidDist x y cx cy) R

/-- The adjustment of one pixel with the two weights taken from the actual
influence fields of the red and blue foci (lines 75-82 then 89-110). -/
noncomputable def adjustAt (cfg : AdjustConfig ℝ) (rcx rcy bcx bcy : ℤ) (R : ℝ)
    (x y : ℤ) (h s l : ℝ) : ℝ × ℝ × ℝ :=
  adjustPixel cfg (influenceWeight x y rcx rcy R) (influenceWeight x y bcx bcy R) h s l

/-- The default-magnitude configuration used by the spec scenario:
`max_hue_shift_deg = 30`, `max_saturation_adjust = 0.2`,
`max_lightness_adjust = 0.1`, red target hue 0, blue target hue 240. -/
def cfgQ : AdjustConfig ℚ := ⟨30, 1 / 5, 1 / 10, 0, 240, 1 / 2⟩

/-- The spec scenario configuration over the reals. -/
noncomputable def cfgR : AdjustConfig ℝ := ⟨30, 1 / 5, 1 / 10, 0, 240, 1 / 2⟩

/-- A configuration with a nonzero red target hue, used to separate the two
branches of the tie comparison. -/
noncomputable def cfgTie : AdjustConfig ℝ := ⟨30, 1 / 5, 1 / 10, 10, 240, 1 / 2⟩

/-! ### Helper lemmas about `clip` and `pymod` -/

lemma clip_of_mem (v lo hi : α) (h1 : lo ≤ v) (h2 : v ≤ hi) : clip v lo hi = v := by
  unfold clip
  rw [max_eq_left h1, min_eq_left h2]

lemma clip_of_le (v lo hi : α) (h1 : v ≤ lo) (h2 : lo ≤ hi) : clip v lo hi = lo := by
  unfold clip
  rw [max_eq_right h1, min_eq_left h2]

lemma clip_of_ge (v lo hi : α) (h1 : hi ≤ v) (h2 : lo ≤ hi) : clip v lo hi = hi := by
  unfold clip
  rw [max_eq_left (le_trans h2 h1), min_eq_right h1]

lemma clip_le (v lo hi : α) : clip v lo hi ≤ hi := min_le_right _ _

lemma le_clip (v lo hi : α) (h : lo ≤ hi) : lo ≤ clip v lo hi :=
  le_min (le_max_right v lo) h

lemma floor_div_eq (a m : α) (k : ℤ) (hm : 0 < m) (h1 : m * k ≤ a) (h2 : a < m * (k + 1)) :
    ⌊a / m⌋ = k := by
  rw [Int.floor_eq_iff]
  constructor
  · rw [le_div_iff hm]
    nlinarith [h1]
  · rw [div_lt_iff hm]
    push_cast
    nlinarith [h2]

lemma pymod_eq (a m : α) (k : ℤ) (hm : 0 < m) (h1 : m * k ≤ a) (h2 : a < m * (k + 1)) :
    pymod a m = a - m * k := by
  unfold pymod
  rw [floor_div_eq a m k hm h1 h2]

lemma pymod_self_of (a m : α) (hm : 0 < m) (h0 : 0 ≤ a) (h1 : a < m) : pymod a m = a := by
  have := pymod_eq a m 0 hm (by simpa using h0) (by simpa using h1)
  simpa using this

lemma pymod_eq_fract (a m : α) (hm : m ≠ 0) : pymod a m = m * Int.fract (a / m) := by
  unfold pymod
  rw [Int.fract]
  field_simp

lemma pymod_nonneg (a m : α) (hm : 0 < m) : 0 ≤ pymod a m := by
  rw [pymod_eq_fract a m hm.ne.symm]
  exact mul_nonneg hm.le (Int.fract_nonneg _)

lemma pymod_lt (a m : α) (hm : 0 < m) : pymod a m < m := by
  rw [pymod_eq_fract a m hm.ne.symm]
  calc m * Int.fract (a / m) < m * 1 :=
        mul_lt_mul_of_pos_left (Int.fract_lt_one _) hm
    _ = m := mul_one m

/-! ### First theorems -/

/-- Claim C6: the `secondary_mix_factor` parameter has no effect on the
computed output pixels: the whole per-pixel pipeline (HSL conversion,
adjustment, conversion back, uint8 store) returns identical results for any
two values of the parameter, all other inputs equal. -/
theorem C6_secondary_mix_inert (mh ms ml rh bh v1 v2 wr wb r g b : ℚ) :
    pipelinePixel ⟨mh, ms, ml, rh, bh, v1⟩ wr wb r g b
      = pipelinePixel ⟨mh, ms, ml, rh, bh, v2⟩ wr wb r g b := rfl

/-! ### Chroma and sector evaluation lemmas for the round trip -/

lemma chroma_mul (mx mn : ℚ) (h0 : 0 ≤ mn) (h1 : mn < mx) (h2 : mx ≤ 1) :
    (1 - |2 * ((mx + mn) / 2) - 1|) *
      (if (mx + mn) / 2 > 1 / 2 then (mx - mn) / (2 - mx - mn) else (mx - mn) / (mx + mn)) =
      mx - mn := by
  rcases le_or_lt ((mx + mn) / 2) (1 / 2) with hl | hl
  · rw [if_neg (not_lt.mpr hl)]
    rw [show |2 * ((mx + mn) / 2) - 1| = 1 - (mx + mn) by
      rw [abs_of_nonpos (by linarith)]; ring]
    have hpos : 0 < mx + mn := by linarith
    field_simp
  · rw [if_pos hl]
    rw [show |2 * ((mx + mn) / 2) - 1| = mx + mn - 1 by
      rw [abs_of_nonneg (by linarith)]; ring]
    have hpos : 0 < 2 - mx - mn := by linarith
    field_simp
    ring

lemma hsl_sector1 (h s l v : ℚ) (j : ℤ) (hh : h = 60 * v + 360 * j)
    (hv0 : 0 ≤ v) (hv1 : v < 1) :
    hsl_to_rgb h s l =
      (((1 - |2 * l - 1|) * s + (l - (1 - |2 * l - 1|) * s / 2)) * 255,
       ((1 - |2 * l - 1|) * s * v + (l - (1 - |2 * l - 1|) * s / 2)) * 255,
       (0 + (l - (1 - |2 * l - 1|) * s / 2)) * 255) := by
  have h60 : h / 60 = v + 6 * (j : ℚ) := by rw [hh]; push_cast; ring
  have hmod2 : pymod (h / 60) 2 = v := by
    rw [h60, pymod_eq (v + 6 * (j : ℚ)) 2 (3 * j) (by norm_num)
      (by push_cast; linarith) (by push_cast; linarith)]
    push_cast; ring
  have hmod360 : pymod h 360 = 60 * v := by
    rw [hh, pymod_eq (60 * v + 360 * (j : ℚ)) 360 j (by norm_num)
      (by push_cast; linarith) (by push_cast; linarith)]
    push_cast; ring
  simp only [hsl_to_rgb, hmod2, hmod360]
  rw [if_pos (show (0:ℚ) ≤ 60 * v ∧ 60 * v < 60 from ⟨by linarith, by linarith⟩)]
  rw [show |v - 1| = 1 - v by rw [abs_of_nonpos (by linarith)]; ring]
  dsimp only
  rw [show (1 - (1 - v) : ℚ) = v by ring]

lemma hsl_sector2 (h s l v : ℚ) (j : ℤ) (hh : h = 60 * v + 360 * j)
    (hv0 : 1 ≤ v) (hv1 : v < 2) :
    hsl_to_rgb h s l =
      (((1 - |2 * l - 1|) * s * (2 - v) + (l - (1 - |2 * l - 1|) * s / 2)) * 255,
       ((1 - |2 * l - 1|) * s + (l - (1 - |2 * l - 1|) * s / 2)) * 255,
       (0 + (l - (1 - |2 * l - 1|) * s / 2)) * 255) := by
  have h60 : h / 60 = v + 6 * (j : ℚ) := by rw [hh]; push_cast; ring
  have hmod2 : pymod (h / 60) 2 = v := by
    rw [h60, pymod_eq (v + 6 * (j : ℚ)) 2 (3 * j) (by norm_num)
      (by push_cast; linarith) (by push_cast; linarith)]
    push_cast; ring
  have hmod360 : pymod h 360 = 60 * v := by
    rw [hh, pymod_eq (60 * v + 360 * (j : ℚ)) 360 j (by norm_num)
      (by push_cast; linarith) (by push_cast; linarith)]
    push_cast; ring
  simp only [hsl_to_rgb, hmod2, hmod360]
  rw [if_neg (by rintro ⟨-, hc⟩; linarith),
    if_pos (show (60:ℚ) ≤ 60 * v ∧ 60 * v < 120 from ⟨by linarith, by linarith⟩)]
  rw [show |v - 1| = v - 1 from abs_of_nonneg (by linarith)]
  dsimp only
  rw [show (1 - (v - 1) : ℚ) = 2 - v by ring]

lemma hsl_sector3 (h s l v : ℚ) (j : ℤ) (hh : h = 60 * v + 360 * j)
    (hv0 : 2 ≤ v) (hv1 : v < 3) :
    hsl_to_rgb h s l =
      ((0 + (l - (1 - |2 * l - 1|) * s / 2)) * 255,
       ((1 - |2 * l - 1|) * s + (l - (1 - |2 * l - 1|) * s / 2)) * 255,
       ((1 - |2 * l - 1|) * s * (v - 2) + (l - (1 - |2 * l - 1|) * s / 2)) * 255) := by
  have h60 : h / 60 = v + 6 * (j : ℚ) := by rw [hh]; push_cast; ring
  have hmod2 : pymod (h / 60) 2 = v - 2 := by
    rw [h60, pymod_eq (v + 6 * (j : ℚ)) 2 (3 * j + 1) (by norm_num)
      (by push_cast; linarith) (by push_cast; linarith)]
    push_cast; ring
  have hmod360 : pymod h 360 = 60 * v := by
    rw [hh, pymod_eq (60 * v + 360 * (j : ℚ)) 360 j (by norm_num)
      (by push_cast; linarith) (by push_cast; linarith)]
    push_cast; ring
  simp only [hsl_to_rgb, hmod2, hmod360]
  rw [if_neg (by rintro ⟨-, hc⟩; linarith), if_neg (by rintro ⟨-, hc⟩; linarith),
    if_pos (show (120:ℚ) ≤ 60 * v ∧ 60 * v < 180 from ⟨by linarith, by linarith⟩)]
  rw [show |v - 2 - 1| = 3 - v by rw [abs_of_nonpos (by linarith)]; ring]
  dsimp only
  rw [show (1 - (3 - v) : ℚ) = v - 2 by ring]

lemma hsl_sector4 (h s l v : ℚ) (j : ℤ) (hh : h = 60 * v + 360 * j)
    (hv0 : 3 ≤ v) (hv1 : v < 4) :
    hsl_to_rgb h s l =
      ((0 + (l - (1 - |2 * l - 1|) * s / 2)) * 255,
       ((1 - |2 * l - 1|) * s * (4 - v) + (l - (1 - |2 * l - 1|) * s / 2)) * 255,
       ((1 - |2 * l - 1|) * s + (l - (1 - |2 * l - 1|) * s / 2)) * 255) := by
  have h60 : h / 60 = v + 6 * (j : ℚ) := by rw [hh]; push_cast; ring
  have hmod2 : pymod (h / 60) 2 = v - 2 := by
    rw [h60, pymod_eq (v + 6 * (j : ℚ)) 2 (3 * j + 1) (by norm_num)
      (by push_cast; linarith) (by push_cast; linarith)]
    push_cast; ring
  have hmod360 : pymod h 360 = 60 * v := by
    rw [hh, pymod_eq (60 * v + 360 * (j : ℚ)) 360 j (by norm_num)
      (by push_cast; linarith) (by push_cast; linarith)]
    push_cast; ring
  simp only [hsl_to_rgb, hmod2, hmod360]
  rw [if_neg (by rintro ⟨-, hc⟩; linarith), if_neg (by rintro ⟨-, hc⟩; linarith),
    if_neg (by rintro ⟨-, hc⟩; linarith),
    if_pos (show (180:ℚ) ≤ 60 * v ∧ 60 * v < 240 from ⟨by linarith, by linarith⟩)]
  rw [show |v - 2 - 1| = v - 3 by rw [abs_of_nonneg (by linarith)]; ring]
  dsimp only
  rw [show (1 - (v - 3) : ℚ) = 4 - v by ring]

lemma hsl_sector5 (h s l v : ℚ) (j : ℤ) (hh : h = 60 * v + 360 * j)
    (hv0 : 4 ≤ v) (hv1 : v < 5) :
    hsl_to_rgb h s l =
      (((1 - |2 * l - 1|) * s * (v - 4) + (l - (1 - |2 * l - 1|) * s / 2)) * 255,
       (0 + (l - (1 - |2 * l - 1|) * s / 2)) * 255,
       ((1 - |2 * l - 1|) * s + (l - (1 - |2 * l - 1|) * s / 2)) * 255) := by
  have h60 : h / 60 = v + 6 * (j : ℚ) := by rw [hh]; push_cast; ring
  have hmod2 : pymod (h / 60) 2 = v - 4 := by
    rw [h60, pymod_eq (v + 6 * (j : ℚ)) 2 (3 * j + 2) (by norm_num)
      (by push_cast; linarith) (by push_cast; linarith)]
    push_cast; ring
  have hmod360 : pymod h 360 = 60 * v := by
    rw [hh, pymod_eq (60 * v + 360 * (j : ℚ)) 360 j (by norm_num)
      (by push_cast; linarith) (by push_cast; linarith)]
    push_cast; ring
  simp only [hsl_to_rgb, hmod2, hmod360]
  rw [if_neg (by rintro ⟨-, hc⟩; linarith), if_neg (by rintro ⟨-, hc⟩; linarith),
    if_neg (by rintro ⟨-, hc⟩; linarith), if_neg (by rintro ⟨-, hc⟩; linarith),
    if_pos (show (240:ℚ) ≤ 60 * v ∧ 60 * v < 300 from ⟨by linarith, by linarith⟩)]
  rw [show |v - 4 - 1| = 5 - v by rw [abs_of_nonpos (by linarith)]; ring]
  dsimp only
  rw [show (1 - (5 - v) : ℚ) = v - 4 by ring]

lemma hsl_sector6 (h s l v : ℚ) (j : ℤ) (hh : h = 60 * v + 360 * j)
    (hv0 : 5 ≤ v) (hv1 : v < 6) :
    hsl_to_rgb h s l =
      (((1 - |2 * l - 1|) * s + (l - (1 - |2 * l - 1|) * s / 2)) * 255,
       (0 + (l - (1 - |2 * l - 1|) * s / 2)) * 255,
       ((1 - |2 * l - 1|) * s * (6 - v) + (l - (1 - |2 * l - 1|) * s / 2)) * 255) := by
  have h60 : h / 60 = v + 6 * (j : ℚ) := by rw [hh]; push_cast; ring
  have hmod2 : pymod (h / 60) 2 = v - 4 := by
    rw [h60, pymod_eq (v + 6 * (j : ℚ)) 2 (3 * j + 2) (by norm_num)
      (by push_cast; linarith) (by push_cast; linarith)]
    push_cast; ring
  have hmod360 : pymod h 360 = 60 * v := by
    rw [hh, pymod_eq (60 * v + 360 * (j : ℚ)) 360 j (by norm_num)
      (by push_cast; linarith) (by push_cast; linarith)]
    push_cast; ring
  simp only [hsl_to_rgb, hmod2, hmod360]
  rw [if_neg (by rintro ⟨-, hc⟩; linarith), if_neg (by rintro ⟨-, hc⟩; linarith),
    if_neg (by rintro ⟨-, hc⟩; linarith), if_neg (by rintro ⟨-, hc⟩; linarith),
    if_neg (by rintro ⟨-, hc⟩; linarith),
    if_pos (show (300:ℚ) ≤ 60 * v ∧ 60 * v < 360 from ⟨by linarith, by linarith⟩)]
  rw [show |v - 4 - 1| = v - 5 by rw [abs_of_nonneg (by linarith)]; ring]
  dsimp only
  rw [show (1 - (v - 5) : ℚ) = 6 - v by ring]

/-! ### The four maximal-channel cases of the round trip -/

lemma rt_case_A (r g b : ℚ) (hb0 : 0 ≤ b) (hr1 : r ≤ 1) (hgb : b ≤ g) (hgr : g ≤ r)
    (hbr : b < r) :
    hsl_to_rgb (rgb_to_hsl r g b).1 (rgb_to_hsl r g b).2.1 (rgb_to_hsl r g b).2.2 =
      (255 * r, 255 * g, 255 * b) := by
  have hmx : max r (max g b) = r := max_eq_left (max_le hgr (hgb.trans hgr))
  have hmn : min r (min g b) = b := by
    rw [min_eq_right hgb]
    exact min_eq_right hbr.le
  have hd : 0 < r - b := by linarith
  have hhsl : rgb_to_hsl r g b =
      (((g - b) / (r - b) + 6) / 6 * 360,
       if (r + b) / 2 > 1 / 2 then (r - b) / (2 - r - b) else (r - b) / (r + b),
       (r + b) / 2) := by
    simp only [rgb_to_hsl, hmx, hmn]
    rw [if_neg hbr.ne', if_true, if_neg (not_lt.mpr hgb)]
  have hc : (1 - |2 * ((r + b) / 2) - 1|) *
      (if (r + b) / 2 > 1 / 2 then (r - b) / (2 - r - b) else (r - b) / (r + b)) = r - b :=
    chroma_mul r b hb0 hbr hr1
  have hu0 : 0 ≤ (g - b) / (r - b) := div_nonneg (by linarith) hd.le
  have hu1 : (g - b) / (r - b) ≤ 1 := by rw [div_le_one hd]; linarith
  rw [hhsl]
  dsimp only
  set uu := (g - b) / (r - b) with huu
  set ss := (if (r + b) / 2 > 1 / 2 then (r - b) / (2 - r - b) else (r - b) / (r + b)) with hss
  rcases lt_or_eq_of_le hu1 with hu | hu
  · rw [hsl_sector1 ((uu + 6) / 6 * 360) ss ((r + b) / 2) uu 1 (by push_cast; ring) hu0 hu, hc]
    simp only [Prod.mk.injEq]
    refine ⟨by ring, ?_, by ring⟩
    rw [huu]
    field_simp
    ring
  · rw [hu]
    have hgr2 : g = r := by
      have h2 := (div_eq_one_iff_eq hd.ne').mp hu
      linarith
    rw [hsl_sector2 ((1 + 6) / 6 * 360) ss ((r + b) / 2) 1 1 (by push_cast; norm_num)
      (by norm_num) (by norm_num), hc]
    simp only [Prod.mk.injEq]
    refine ⟨by ring, by rw [hgr2]; ring, by ring⟩

lemma rt_case_B (r g b : ℚ) (hg0 : 0 ≤ g) (hr1 : r ≤ 1) (hgb : g < b) (hbr : b ≤ r) :
    hsl_to_rgb (rgb_to_hsl r g b).1 (rgb_to_hsl r g b).2.1 (rgb_to_hsl r g b).2.2 =
      (255 * r, 255 * g, 255 * b) := by
  have hgr : g < r := lt_of_lt_of_le hgb hbr
  have hmx : max r (max g b) = r := max_eq_left (max_le hgr.le hbr)
  have hmn : min r (min g b) = g := by
    rw [min_eq_left hgb.le]
    exact min_eq_right hgr.le
  have hd : 0 < r - g := by linarith
  have hhsl : rgb_to_hsl r g b =
      (((g - b) / (r - g) + 0) / 6 * 360,
       if (r + g) / 2 > 1 / 2 then (r - g) / (2 - r - g) else (r - g) / (r + g),
       (r + g) / 2) := by
    simp only [rgb_to_hsl, hmx, hmn]
    rw [if_neg hgr.ne', if_true, if_pos hgb]
  have hc : (1 - |2 * ((r + g) / 2) - 1|) *
      (if (r + g) / 2 > 1 / 2 then (r - g) / (2 - r - g) else (r - g) / (r + g)) = r - g :=
    chroma_mul r g hg0 hgr hr1
  have hu0 : -1 ≤ (g - b) / (r - g) := by rw [le_div_iff hd]; linarith
  have hu1 : (g - b) / (r - g) < 0 := div_neg_of_neg_of_pos (by linarith) hd
  rw [hhsl]
  dsimp only
  set uu := (g - b) / (r - g) with huu
  set ss := (if (r + g) / 2 > 1 / 2 then (r - g) / (2 - r - g) else (r - g) / (r + g)) with hss
  rw [hsl_sector6 ((uu + 0) / 6 * 360) ss ((r + g) / 2) (uu + 6) (-1) (by push_cast; ring)
    (by linarith) (by linarith), hc]
  simp only [Prod.mk.injEq]
  refine ⟨by ring, by ring, ?_⟩
  rw [huu]
  field_simp
  ring

lemma rt_case_C (r g b : ℚ) (hr0 : 0 ≤ r) (hb0 : 0 ≤ b) (hg1 : g ≤ 1) (hrg : r < g)
    (hbg : b ≤ g) :
    hsl_to_rgb (rgb_to_hsl r g b).1 (rgb_to_hsl r g b).2.1 (rgb_to_hsl r g b).2.2 =
      (255 * r, 255 * g, 255 * b) := by
  have hmx : max r (max g b) = g := by
    rw [max_eq_left hbg]
    exact max_eq_right hrg.le
  rcases lt_or_le b r with hbr | hbr
  · have hbg2 : b < g := by linarith
    have hmn : min r (min g b) = b := by
      rw [min_eq_right hbg]
      exact min_eq_right hbr.le
    have hd : 0 < g - b := by linarith
    have hhsl : rgb_to_hsl r g b =
        (((b - r) / (g - b) + 2) / 6 * 360,
         if (g + b) / 2 > 1 / 2 then (g - b) / (2 - g - b) else (g - b) / (g + b),
         (g + b) / 2) := by
      simp only [rgb_to_hsl, hmx, hmn]
      rw [if_neg hbg2.ne', if_neg hrg.ne', if_true]
    have hc : (1 - |2 * ((g + b) / 2) - 1|) *
        (if (g + b) / 2 > 1 / 2 then (g - b) / (2 - g - b) else (g - b) / (g + b)) = g - b :=
      chroma_mul g b hb0 hbg2 hg1
    have hu0 : -1 < (b - r) / (g - b) := by rw [lt_div_iff hd]; linarith
    have hu1 : (b - r) / (g - b) < 0 := div_neg_of_neg_of_pos (by linarith) hd
    rw [hhsl]
    dsimp only
    set uu := (b - r) / (g - b) with huu
    set ss := (if (g + b) / 2 > 1 / 2 then (g - b) / (2 - g - b) else (g - b) / (g + b)) with hss
    rw [hsl_sector2 ((uu + 2) / 6 * 360) ss ((g + b) / 2) (uu + 2) 0 (by push_cast; ring)
      (by linarith) (by linarith), hc]
    simp only [Prod.mk.injEq]
    refine ⟨?_, by ring, by ring⟩
    rw [huu]
    field_simp
    ring
  · have hmn : min r (min g b) = r := min_eq_left (le_min hrg.le hbr)
    have hd : 0 < g - r := by linarith
    have hhsl : rgb_to_hsl r g b =
        (((b - r) / (g - r) + 2) / 6 * 360,
         if (g + r) / 2 > 1 / 2 then (g - r) / (2 - g - r) else (g - r) / (g + r),
         (g + r) / 2) := by
      simp only [rgb_to_hsl, hmx, hmn]
      rw [if_neg hrg.ne', if_neg hrg.ne', if_true]
    have hc : (1 - |2 * ((g + r) / 2) - 1|) *
        (if (g + r) / 2 > 1 / 2 then (g - r) / (2 - g - r) else (g - r) / (g + r)) = g - r :=
      chroma_mul g r hr0 hrg hg1
    have hu0 : 0 ≤ (b - r) / (g - r) := div_nonneg (by linarith) hd.le
    have hu1 : (b - r) / (g - r) ≤ 1 := by rw [div_le_one hd]; linarith
    rw [hhsl]
    dsimp only
    set uu := (b - r) / (g - r) with huu
    set ss := (if (g + r) / 2 > 1 / 2 then (g - r) / (2 - g - r) else (g - r) / (g + r)) with hss
    rcases lt_or_eq_of_le hu1 with hu | hu
    · rw [hsl_sector3 ((uu + 2) / 6 * 360) ss ((g + r) / 2) (uu + 2) 0 (by push_cast; ring)
        (by linarith) (by linarith), hc]
      simp only [Prod.mk.injEq]
      refine ⟨by ring, by ring, ?_⟩
      rw [huu]
      field_simp
      ring
    · rw [hu]
      have hbg2 : b = g := by
        have h2 := (div_eq_one_iff_eq hd.ne').mp hu
        linarith
      rw [hsl_sector4 ((1 + 2) / 6 * 360) ss ((g + r) / 2) 3 0 (by push_cast; norm_num)
        (by norm_num) (by norm_num), hc]
      simp only [Prod.mk.injEq]
      refine ⟨by ring, by ring, by rw [hbg2]; ring⟩

lemma rt_case_D (r g b : ℚ) (hr0 : 0 ≤ r) (hg0 : 0 ≤ g) (hb1 : b ≤ 1) (hrb : r < b)
    (hgb : g < b) :
    hsl_to_rgb (rgb_to_hsl r g b).1 (rgb_to_hsl r g b).2.1 (rgb_to_hsl r g b).2.2 =
      (255 * r, 255 * g, 255 * b) := by
  have hmx : max r (max g b) = b := by
    rw [max_eq_right hgb.le]
    exact max_eq_right hrb.le
  rcases lt_or_le r g with hrg | hgr
  · have hmn : min r (min g b) = r := min_eq_left (le_min hrg.le hrb.le)
    have hd : 0 < b - r := by linarith
    have hhsl : rgb_to_hsl r g b =
        (((r - g) / (b - r) + 4) / 6 * 360,
         if (b + r) / 2 > 1 / 2 then (b - r) / (2 - b - r) else (b - r) / (b + r),
         (b + r) / 2) := by
      simp only [rgb_to_hsl, hmx, hmn]
      rw [if_neg hrb.ne', if_neg hrb.ne', if_neg hgb.ne', if_true]
    have hc : (1 - |2 * ((b + r) / 2) - 1|) *
        (if (b + r) / 2 > 1 / 2 then (b - r) / (2 - b - r) else (b - r) / (b + r)) = b - r :=
      chroma_mul b r hr0 hrb hb1
    have hu0 : -1 < (r - g) / (b - r) := by rw [lt_div_iff hd]; linarith
    have hu1 : (r - g) / (b - r) < 0 := div_neg_of_neg_of_pos (by linarith) hd
    rw [hhsl]
    dsimp only
    set uu := (r - g) / (b - r) with huu
    set ss := (if (b + r) / 2 > 1 / 2 then (b - r) / (2 - b - r) else (b - r) / (b + r)) with hss
    rw [hsl_sector4 ((uu + 4) / 6 * 360) ss ((b + r) / 2) (uu + 4) 0 (by push_cast; ring)
      (by linarith) (by linarith), hc]
    simp only [Prod.mk.injEq]
    refine ⟨by ring, ?_, by ring⟩
    rw [huu]
    field_simp
    ring
  · have hmn : min r (min g b) = g := by
      rw [min_eq_left hgb.le]
      exact min_eq_right hgr
    have hd : 0 < b - g := by linarith
    have hhsl : rgb_to_hsl r g b =
        (((r - g) / (b - g) + 4) / 6 * 360,
         if (b + g) / 2 > 1 / 2 then (b - g) / (2 - b - g) else (b - g) / (b + g),
         (b + g) / 2) := by
      simp only [rgb_to_hsl, hmx, hmn]
      rw [if_neg hgb.ne', if_neg hrb.ne', if_neg hgb.ne', if_true]
    have hc : (1 - |2 * ((b + g) / 2) - 1|) *
        (if (b + g) / 2 > 1 / 2 then (b - g) / (2 - b - g) else (b - g) / (b + g)) = b - g :=
      chroma_mul b g hg0 hgb hb1
    have hu0 : 0 ≤ (r - g) / (b - g) := div_nonneg (by linarith) hd.le
    have hu1 : (r - g) / (b - g) < 1 := by rw [div_lt_one hd]; linarith
    rw [hhsl]
    dsimp only
    set uu := (r - g) / (b - g) with huu
    set ss := (if (b + g) / 2 > 1 / 2 then (b - g) / (2 - b - g) else (b - g) / (b + g)) with hss
    rw [hsl_sector5 ((uu + 4) / 6 * 360) ss ((b + g) / 2) (uu + 4) 0 (by push_cast; ring)
      (by linarith) (by linarith), hc]
    simp only [Prod.mk.injEq]
    refine ⟨?_, by ring, by ring⟩
    rw [huu]
    field_simp
    ring

/-- Exact round trip: on every non-achromatic triple with components in the
unit interval, converting to HSL and back reproduces the input scaled by
255, with no error at all. -/
lemma roundtrip_exact (r g b : ℚ) (hr0 : 0 ≤ r) (hr1 : r ≤ 1) (hg0 : 0 ≤ g) (hg1 : g ≤ 1)
    (hb0 : 0 ≤ b) (hb1 : b ≤ 1) (hna : ¬(r = g ∧ g = b)) :
    hsl_to_rgb (rgb_to_hsl r g b).1 (rgb_to_hsl r g b).2.1 (rgb_to_hsl r g b).2.2 =
      (255 * r, 255 * g, 255 * b) := by
  rcases le_or_lt g r with h1 | h1
  · rcases le_or_lt b r with h2 | h2
    · rcases le_or_lt b g with h3 | h3
      · have hbr : b < r := by
          rcases lt_or_eq_of_le h2 with h4 | h4
          · exact h4
          · exact absurd ⟨by linarith, by linarith⟩ hna
        exact rt_case_A r g b hb0 hr1 h3 h1 hbr
      · exact rt_case_B r g b hg0 hr1 h3 h2
    · exact rt_case_D r g b hr0 hg0 hb1 h2 (by linarith)
  · rcases le_or_lt b g with h2 | h2
    · exact rt_case_C r g b hr0 hb0 hg1 h1 h2
    · exact rt_case_D r g b hr0 hg0 hb1 (by linarith) h2

/-! ### Range lemmas -/

lemma comp_mem (cc v m : ℚ) (hv0 : 0 ≤ v) (hvc : v ≤ cc) (hm0 : 0 ≤ m)
    (hcm : cc + m ≤ 1) :
    0 ≤ (v + m) * 255 ∧ (v + m) * 255 ≤ 255 :=
  ⟨by linarith, by linarith⟩

lemma hsl_to_rgb_mem (h s l : ℚ) (hs0 : 0 ≤ s) (hs1 : s ≤ 1) (hl0 : 0 ≤ l) (hl1 : l ≤ 1) :
    (0 ≤ (hsl_to_rgb h s l).1 ∧ (hsl_to_rgb h s l).1 ≤ 255) ∧
    (0 ≤ (hsl_to_rgb h s l).2.1 ∧ (hsl_to_rgb h s l).2.1 ≤ 255) ∧
    (0 ≤ (hsl_to_rgb h s l).2.2 ∧ (hsl_to_rgb h s l).2.2 ≤ 255) := by
  have habs1 : |2 * l - 1| ≤ 1 := by rw [abs_le]; constructor <;> linarith
  have hcs0 : 0 ≤ (1 - |2 * l - 1|) * s := mul_nonneg (by linarith) hs0
  have hcs1 : (1 - |2 * l - 1|) * s ≤ 1 - |2 * l - 1| := by nlinarith
  have hc2l : 1 - |2 * l - 1| ≤ 2 * l := by
    have h2 := neg_abs_le (2 * l - 1)
    linarith
  have hc2l2 : 1 - |2 * l - 1| ≤ 2 - 2 * l := by
    have h2 := le_abs_self (2 * l - 1)
    linarith
  have ht0 : 0 ≤ pymod (h / 60) 2 := pymod_nonneg _ _ (by norm_num)
  have ht2 : pymod (h / 60) 2 < 2 := pymod_lt _ _ (by norm_num)
  have htm0 : 0 ≤ 1 - |pymod (h / 60) 2 - 1| := by
    have h2 : |pymod (h / 60) 2 - 1| ≤ 1 := by rw [abs_le]; constructor <;> linarith
    linarith
  have htm1 : 1 - |pymod (h / 60) 2 - 1| ≤ 1 := by
    have h2 := abs_nonneg (pymod (h / 60) 2 - 1)
    linarith
  have hx0 : 0 ≤ (1 - |2 * l - 1|) * s * (1 - |pymod (h / 60) 2 - 1|) :=
    mul_nonneg hcs0 htm0
  have hxc : (1 - |2 * l - 1|) * s * (1 - |pymod (h / 60) 2 - 1|) ≤ (1 - |2 * l - 1|) * s := by
    nlinarith
  have hm0 : 0 ≤ l - (1 - |2 * l - 1|) * s / 2 := by linarith
  have hcm : (1 - |2 * l - 1|) * s + (l - (1 - |2 * l - 1|) * s / 2) ≤ 1 := by linarith
  have hz0 : (0 : ℚ) ≤ 0 := le_rfl
  simp only [hsl_to_rgb]
  split_ifs <;> dsimp only
  · exact ⟨comp_mem _ _ _ hcs0 le_rfl hm0 hcm, comp_mem _ _ _ hx0 hxc hm0 hcm,
      comp_mem _ _ _ hz0 hcs0 hm0 hcm⟩
  · exact ⟨comp_mem _ _ _ hx0 hxc hm0 hcm, comp_mem _ _ _ hcs0 le_rfl hm0 hcm,
      comp_mem _ _ _ hz0 hcs0 hm0 hcm⟩
  · exact ⟨comp_mem _ _ _ hz0 hcs0 hm0 hcm, comp_mem _ _ _ hcs0 le_rfl hm0 hcm,
      comp_mem _ _ _ hx0 hxc hm0 hcm⟩
  · exact ⟨comp_mem _ _ _ hz0 hcs0 hm0 hcm, comp_mem _ _ _ hx0 hxc hm0 hcm,
      comp_mem _ _ _ hcs0 le_rfl hm0 hcm⟩
  · exact ⟨comp_mem _ _ _ hx0 hxc hm0 hcm, comp_mem _ _ _ hz0 hcs0 hm0 hcm,
      comp_mem _ _ _ hcs0 le_rfl hm0 hcm⟩
  · exact ⟨comp_mem _ _ _ hcs0 le_rfl hm0 hcm, comp_mem _ _ _ hz0 hcs0 hm0 hcm,
      comp_mem _ _ _ hx0 hxc hm0 hcm⟩
  · exact ⟨comp_mem _ _ _ hz0 hcs0 hm0 hcm, comp_mem _ _ _ hz0 hcs0 hm0 hcm,
      comp_mem _ _ _ hz0 hcs0 hm0 hcm⟩

lemma quantize_no_wrap (q : ℚ) (h0 : 0 ≤ q) (h1 : q ≤ 255) :
    quantize q = (⌊q⌋).toNat ∧ (quantize q : ℤ) = ⌊q⌋ ∧ quantize q ≤ 255 := by
  have hf0 : 0 ≤ ⌊q⌋ := Int.floor_nonneg.mpr h0
  have hf1 : ⌊q⌋ ≤ 255 := by
    have h2 : ⌊q⌋ ≤ ⌊(255 : ℚ)⌋ := Int.floor_le_floor h1
    simpa using h2
  have hlt : (⌊q⌋).toNat < 256 := by omega
  unfold quantize
  rw [Nat.mod_eq_of_lt hlt]
  refine ⟨rfl, Int.toNat_of_nonneg hf0, by omega⟩

/-! ### Claim theorems over the rationals -/

/-- Claim C1: for every RGB triple with components in the unit interval that
is not achromatic, composing `rgb_to_hsl` with `hsl_to_rgb` reproduces the
triple within 1e-3 per channel, once the 0-255 output scale of the inverse
is divided out.  (The round trip is in fact exact in exact arithmetic.) -/
theorem C1_roundtrip (r g b : ℚ) (hr0 : 0 ≤ r) (hr1 : r ≤ 1) (hg0 : 0 ≤ g) (hg1 : g ≤ 1)
    (hb0 : 0 ≤ b) (hb1 : b ≤ 1) (hna : ¬(r = g ∧ g = b)) :
    |(hsl_to_rgb (rgb_to_hsl r g b).1 (rgb_to_hsl r g b).2.1 (rgb_to_hsl r g b).2.2).1
        / 255 - r| ≤ 1 / 1000 ∧
    |(hsl_to_rgb (rgb_to_hsl r g b).1 (rgb_to_hsl r g b).2.1 (rgb_to_hsl r g b).2.2).2.1
        / 255 - g| ≤ 1 / 1000 ∧
    |(hsl_to_rgb (rgb_to_hsl r g b).1 (rgb_to_hsl r g b).2.1 (rgb_to_hsl r g b).2.2).2.2
        / 255 - b| ≤ 1 / 1000 := by
  rw [roundtrip_exact r g b hr0 hr1 hg0 hg1 hb0 hb1 hna]
  norm_num

/-- Witness for C1 at the concrete pure-red triple. -/
theorem C1_roundtrip_witness :
    (¬((1 : ℚ) = 0 ∧ (0 : ℚ) = 0)) ∧
    (|(hsl_to_rgb (rgb_to_hsl (1 : ℚ) 0 0).1 (rgb_to_hsl (1 : ℚ) 0 0).2.1
        (rgb_to_hsl (1 : ℚ) 0 0).2.2).1 / 255 - 1| ≤ 1 / 1000 ∧
     |(hsl_to_rgb (rgb_to_hsl (1 : ℚ) 0 0).1 (rgb_to_hsl (1 : ℚ) 0 0).2.1
        (rgb_to_hsl (1 : ℚ) 0 0).2.2).2.1 / 255 - 0| ≤ 1 / 1000 ∧
     |(hsl_to_rgb (rgb_to_hsl (1 : ℚ) 0 0).1 (rgb_to_hsl (1 : ℚ) 0 0).2.1
        (rgb_to_hsl (1 : ℚ) 0 0).2.2).2.2 / 255 - 0| ≤ 1 / 1000) :=
  ⟨by norm_num, C1_roundtrip 1 0 0 (by norm_num) (by norm_num) (by norm_num) (by norm_num)
    (by norm_num) (by norm_num) (by norm_num)⟩

/-- Claim C10: for saturation and lightness in the unit interval (and any
non-negative hue), every channel of `hsl_to_rgb` lies in 0..255, and the
uint8 store does not wrap: the modulo-256 reduction in the cast is the
identity on the truncated value. -/
theorem C10_store_never_wraps (h s l : ℚ) (hh : 0 ≤ h) (hs0 : 0 ≤ s) (hs1 : s ≤ 1)
    (hl0 : 0 ≤ l) (hl1 : l ≤ 1) :
    (0 ≤ (hsl_to_rgb h s l).1 ∧ (hsl_to_rgb h s l).1 ≤ 255) ∧
    (0 ≤ (hsl_to_rgb h s l).2.1 ∧ (hsl_to_rgb h s l).2.1 ≤ 255) ∧
    (0 ≤ (hsl_to_rgb h s l).2.2 ∧ (hsl_to_rgb h s l).2.2 ≤ 255) ∧
    quantize (hsl_to_rgb h s l).1 = (⌊(hsl_to_rgb h s l).1⌋).toNat ∧
    quantize (hsl_to_rgb h s l).2.1 = (⌊(hsl_to_rgb h s l).2.1⌋).toNat ∧
    quantize (hsl_to_rgb h s l).2.2 = (⌊(hsl_to_rgb h s l).2.2⌋).toNat := by
  obtain ⟨⟨a0, a1⟩, ⟨b0, b1⟩, c0, c1⟩ := hsl_to_rgb_mem h s l hs0 hs1 hl0 hl1
  exact ⟨⟨a0, a1⟩, ⟨b0, b1⟩, ⟨c0, c1⟩, (quantize_no_wrap _ a0 a1).1,
    (quantize_no_wrap _ b0 b1).1, (quantize_no_wrap _ c0 c1).1⟩

/-- Witness for C10 at hue 120, full saturation, half lightness. -/
theorem C10_store_never_wraps_witness :
    ((0 : ℚ) ≤ 120) ∧
    ((0 ≤ (hsl_to_rgb (120 : ℚ) 1 (1 / 2)).1 ∧ (hsl_to_rgb (120 : ℚ) 1 (1 / 2)).1 ≤ 255) ∧
     (0 ≤ (hsl_to_rgb (120 : ℚ) 1 (1 / 2)).2.1 ∧ (hsl_to_rgb (120 : ℚ) 1 (1 / 2)).2.1 ≤ 255) ∧
     (0 ≤ (hsl_to_rgb (120 : ℚ) 1 (1 / 2)).2.2 ∧ (hsl_to_rgb (120 : ℚ) 1 (1 / 2)).2.2 ≤ 255) ∧
     quantize (hsl_to_rgb (120 : ℚ) 1 (1 / 2)).1 = (⌊(hsl_to_rgb (120 : ℚ) 1 (1 / 2)).1⌋).toNat ∧
     quantize (hsl_to_rgb (120 : ℚ) 1 (1 / 2)).2.1 =
       (⌊(hsl_to_rgb (120 : ℚ) 1 (1 / 2)).2.1⌋).toNat ∧
     quantize (hsl_to_rgb (120 : ℚ) 1 (1 / 2)).2.2 =
       (⌊(hsl_to_rgb (120 : ℚ) 1 (1 / 2)).2.2⌋).toNat) :=
  ⟨by norm_num, C10_store_never_wraps 120 1 (1 / 2) (by norm_num) (by norm_num) (by norm_num)
    (by norm_num) (by norm_num)⟩

/-- Counterexample for C4: the store of the mid-gray channel value 127.5
into the uint8 buffer yields 127 (truncation), while rounding to the nearest
integer would give 128: the code does not round. -/
theorem C4_cex_truncation_not_rounding :
    hsl_to_rgb (0 : ℚ) 0 (1 / 2) = (255 / 2, 255 / 2, 255 / 2) ∧
    quantize ((255 : ℚ) / 2) = 127 ∧
    round ((255 : ℚ) / 2) = 128 := by
  have hf : ⌊(255 : ℚ) / 2⌋ = 127 := by
    rw [Int.floor_eq_iff] <;> norm_num
  refine ⟨by norm_num [hsl_to_rgb, pymod, Int.floor_eq_iff], ?_, ?_⟩
  · unfold quantize
    rw [hf]
    rfl
  · rw [round_eq]
    rw [show (255 : ℚ) / 2 + 1 / 2 = 128 by norm_num]
    rw [Int.floor_eq_iff] <;> norm_num

/-- Claim C4 (amended): after the conversion back to RGB each channel is
stored by TRUNCATION toward zero (the numpy float-to-uint8 cast), not by
rounding, and no explicit clamp is applied; the stored value is in the valid
0-255 range only because the channels themselves lie in 0..255. -/
theorem C4_quantize_truncates (h s l : ℚ) (hs0 : 0 ≤ s) (hs1 : s ≤ 1)
    (hl0 : 0 ≤ l) (hl1 : l ≤ 1) :
    ((quantize (hsl_to_rgb h s l).1 : ℤ) = ⌊(hsl_to_rgb h s l).1⌋ ∧
      quantize (hsl_to_rgb h s l).1 ≤ 255) ∧
    ((quantize (hsl_to_rgb h s l).2.1 : ℤ) = ⌊(hsl_to_rgb h s l).2.1⌋ ∧
      quantize (hsl_to_rgb h s l).2.1 ≤ 255) ∧
    ((quantize (hsl_to_rgb h s l).2.2 : ℤ) = ⌊(hsl_to_rgb h s l).2.2⌋ ∧
      quantize (hsl_to_rgb h s l).2.2 ≤ 255) := by
  obtain ⟨⟨a0, a1⟩, ⟨b0, b1⟩, c0, c1⟩ := hsl_to_rgb_mem h s l hs0 hs1 hl0 hl1
  exact ⟨⟨(quantize_no_wrap _ a0 a1).2.1, (quantize_no_wrap _ a0 a1).2.2⟩,
    ⟨(quantize_no_wrap _ b0 b1).2.1, (quantize_no_wrap _ b0 b1).2.2⟩,
    ⟨(quantize_no_wrap _ c0 c1).2.1, (quantize_no_wrap _ c0 c1).2.2⟩⟩

/-- Witness for C4 (amended) at hue 0, zero saturation, half lightness. -/
theorem C4_quantize_truncates_witness :
    ((0 : ℚ) ≤ 0) ∧
    (((quantize (hsl_to_rgb (0 : ℚ) 0 (1 / 2)).1 : ℤ) = ⌊(hsl_to_rgb (0 : ℚ) 0 (1 / 2)).1⌋ ∧
       quantize (hsl_to_rgb (0 : ℚ) 0 (1 / 2)).1 ≤ 255) ∧
     ((quantize (hsl_to_rgb (0 : ℚ) 0 (1 / 2)).2.1 : ℤ) = ⌊(hsl_to_rgb (0 : ℚ) 0 (1 / 2)).2.1⌋ ∧
       quantize (hsl_to_rgb (0 : ℚ) 0 (1 / 2)).2.1 ≤ 255) ∧
     ((quantize (hsl_to_rgb (0 : ℚ) 0 (1 / 2)).2.2 : ℤ) = ⌊(hsl_to_rgb (0 : ℚ) 0 (1 / 2)).2.2⌋ ∧
       quantize (hsl_to_rgb (0 : ℚ) 0 (1 / 2)).2.2 ≤ 255)) :=
  ⟨le_rfl, C4_quantize_truncates 0 0 (1 / 2) (by norm_num) (by norm_num) (by norm_num)
    (by norm_num)⟩

/-! ### Hue and saturation bounds of `rgb_to_hsl` -/

lemma hue_expr_bounds (p1 p2 mx mn c0 : ℚ) (hd : mn < mx) (hp1a : mn ≤ p1) (hp1b : p1 ≤ mx)
    (hp2a : mn ≤ p2) (hp2b : p2 ≤ mx) (hc0 : 0 ≤ c0) (hc6 : c0 ≤ 6) :
    -60 ≤ ((p1 - p2) / (mx - mn) + c0) / 6 * 360 ∧
      ((p1 - p2) / (mx - mn) + c0) / 6 * 360 ≤ 420 := by
  have hdd : 0 < mx - mn := by linarith
  have h1 : -1 ≤ (p1 - p2) / (mx - mn) := by rw [le_div_iff hdd]; linarith
  have h2 : (p1 - p2) / (mx - mn) ≤ 1 := by rw [div_le_one hdd]; linarith
  constructor <;> linarith

lemma s_bound_hi (mx mn : ℚ) (hlt : mn < mx) (hmx1 : mx ≤ 1) :
    0 ≤ (mx - mn) / (2 - mx - mn) ∧ (mx - mn) / (2 - mx - mn) ≤ 1 := by
  have hden : 0 < 2 - mx - mn := by linarith
  exact ⟨div_nonneg (by linarith) hden.le, by rw [div_le_one hden]; linarith⟩

lemma s_bound_lo (mx mn : ℚ) (hlt : mn < mx) (hmn0 : 0 ≤ mn) :
    0 ≤ (mx - mn) / (mx + mn) ∧ (mx - mn) / (mx + mn) ≤ 1 := by
  have hden : 0 < mx + mn := by linarith
  exact ⟨div_nonneg (by linarith) hden.le, by rw [div_le_one hden]; linarith⟩

/-- Counterexample for C8: on the pure-red input the forward conversion
returns hue 360, which is NOT in the half-open interval from 0 to 360. -/
theorem C8_cex_hue_360 :
    rgb_to_hsl (1 : ℚ) 0 0 = (360, 1, 1 / 2) ∧ ¬ ((rgb_to_hsl (1 : ℚ) 0 0).1 < 360) := by
  constructor <;> norm_num [rgb_to_hsl]

/-- Claim C8 (amended): on unit-interval inputs `rgb_to_hsl` keeps
saturation and lightness in the unit interval, but its hue only lies in the
interval from -60 to 420 (both reachable up to the open end), NOT in
0..360; the ADJUSTED pixel however always has hue in the half-open interval
from 0 to 360 and clamped saturation and lightness. -/
theorem C8_hsl_invariants (r g b : ℚ) (hr0 : 0 ≤ r) (hr1 : r ≤ 1) (hg0 : 0 ≤ g) (hg1 : g ≤ 1)
    (hb0 : 0 ≤ b) (hb1 : b ≤ 1) :
    (-60 ≤ (rgb_to_hsl r g b).1 ∧ (rgb_to_hsl r g b).1 ≤ 420) ∧
    (0 ≤ (rgb_to_hsl r g b).2.1 ∧ (rgb_to_hsl r g b).2.1 ≤ 1) ∧
    (0 ≤ (rgb_to_hsl r g b).2.2 ∧ (rgb_to_hsl r g b).2.2 ≤ 1) ∧
    (∀ (cfg : AdjustConfig ℚ) (wr wb h s l : ℚ),
      (0 ≤ (adjustPixel cfg wr wb h s l).1 ∧ (adjustPixel cfg wr wb h s l).1 < 360) ∧
      (0 ≤ (adjustPixel cfg wr wb h s l).2.1 ∧ (adjustPixel cfg wr wb h s l).2.1 ≤ 1) ∧
      (0 ≤ (adjustPixel cfg wr wb h s l).2.2 ∧ (adjustPixel cfg wr wb h s l).2.2 ≤ 1)) := by
  have hadj : ∀ (cfg : AdjustConfig ℚ) (wr wb h s l : ℚ),
      (0 ≤ (adjustPixel cfg wr wb h s l).1 ∧ (adjustPixel cfg wr wb h s l).1 < 360) ∧
      (0 ≤ (adjustPixel cfg wr wb h s l).2.1 ∧ (adjustPixel cfg wr wb h s l).2.1 ≤ 1) ∧
      (0 ≤ (adjustPixel cfg wr wb h s l).2.2 ∧ (adjustPixel cfg wr wb h s l).2.2 ≤ 1) := by
    intro cfg wr wb h s l
    simp only [adjustPixel]
    exact ⟨⟨pymod_nonneg _ _ (by norm_num), pymod_lt _ _ (by norm_num)⟩,
      ⟨le_clip _ 0 1 (by norm_num), clip_le _ 0 1⟩,
      ⟨le_clip _ 0 1 (by norm_num), clip_le _ 0 1⟩⟩
  have hrmx : r ≤ max r (max g b) := le_max_left _ _
  have hgmx : g ≤ max r (max g b) := le_trans (le_max_left _ _) (le_max_right _ _)
  have hbmx : b ≤ max r (max g b) := le_trans (le_max_right _ _) (le_max_right _ _)
  have hmnr : min r (min g b) ≤ r := min_le_left _ _
  have hmng : min r (min g b) ≤ g := le_trans (min_le_right _ _) (min_le_left _ _)
  have hmnb : min r (min g b) ≤ b := le_trans (min_le_right _ _) (min_le_right _ _)
  have hmx1 : max r (max g b) ≤ 1 := max_le hr1 (max_le hg1 hb1)
  have hmn0 : 0 ≤ min r (min g b) := le_min hr0 (le_min hg0 hb0)
  by_cases hac : max r (max g b) = min r (min g b)
  · refine ⟨?_, ?_, ?_, hadj⟩ <;> simp only [rgb_to_hsl, if_pos hac]
    · exact ⟨by norm_num, by norm_num⟩
    · exact ⟨le_rfl, by norm_num⟩
    · exact ⟨by linarith, by linarith⟩
  · have hlt : min r (min g b) < max r (max g b) :=
      lt_of_le_of_ne (le_trans (min_le_left _ _) (le_max_left _ _)) (fun he => hac he.symm)
    have key : (-60 ≤ (rgb_to_hsl r g b).1 ∧ (rgb_to_hsl r g b).1 ≤ 420) ∧
        (0 ≤ (rgb_to_hsl r g b).2.1 ∧ (rgb_to_hsl r g b).2.1 ≤ 1) ∧
        (0 ≤ (rgb_to_hsl r g b).2.2 ∧ (rgb_to_hsl r g b).2.2 ≤ 1) := by
      simp only [rgb_to_hsl, if_neg hac]
      split_ifs
      · exact ⟨hue_expr_bounds g b _ _ 0 hlt hmng hgmx hmnb hbmx (by norm_num) (by norm_num),
          s_bound_hi _ _ hlt hmx1, by constructor <;> linarith⟩
      · exact ⟨hue_expr_bounds g b _ _ 0 hlt hmng hgmx hmnb hbmx (by norm_num) (by norm_num),
          s_bound_lo _ _ hlt hmn0, by constructor <;> linarith⟩
      · exact ⟨hue_expr_bounds g b _ _ 6 hlt hmng hgmx hmnb hbmx (by norm_num) (by norm_num),
          s_bound_hi _ _ hlt hmx1, by constructor <;> linarith⟩
      · exact ⟨hue_expr_bounds g b _ _ 6 hlt hmng hgmx hmnb hbmx (by norm_num) (by norm_num),
          s_bound_lo _ _ hlt hmn0, by constructor <;> linarith⟩
      · exact ⟨hue_expr_bounds b r _ _ 2 hlt hmnb hbmx hmnr hrmx (by norm_num) (by norm_num),
          s_bound_hi _ _ hlt hmx1, by constructor <;> linarith⟩
      · exact ⟨hue_expr_bounds b r _ _ 2 hlt hmnb hbmx hmnr hrmx (by norm_num) (by norm_num),
          s_bound_lo _ _ hlt hmn0, by constructor <;> linarith⟩
      · exact ⟨hue_expr_bounds r g _ _ 4 hlt hmnr hrmx hmng hgmx (by norm_num) (by norm_num),
          s_bound_hi _ _ hlt hmx1, by constructor <;> linarith⟩
      · exact ⟨hue_expr_bounds r g _ _ 4 hlt hmnr hrmx hmng hgmx (by norm_num) (by norm_num),
          s_bound_lo _ _ hlt hmn0, by constructor <;> linarith⟩
      · exact ⟨⟨by norm_num, by norm_num⟩, s_bound_hi _ _ hlt hmx1,
          by constructor <;> linarith⟩
      · exact ⟨⟨by norm_num, by norm_num⟩, s_bound_lo _ _ hlt hmn0,
          by constructor <;> linarith⟩
    exact ⟨key.1, key.2.1, key.2.2, hadj⟩

/-- Witness for C8 (amended) at the pure-red triple, where the forward hue
is 360: inside the amended bounds, outside the claimed ones. -/
theorem C8_hsl_invariants_witness :
    ((0 : ℚ) ≤ 1) ∧
    ((-60 ≤ (rgb_to_hsl (1 : ℚ) 0 0).1 ∧ (rgb_to_hsl (1 : ℚ) 0 0).1 ≤ 420) ∧
     (0 ≤ (rgb_to_hsl (1 : ℚ) 0 0).2.1 ∧ (rgb_to_hsl (1 : ℚ) 0 0).2.1 ≤ 1) ∧
     (0 ≤ (rgb_to_hsl (1 : ℚ) 0 0).2.2 ∧ (rgb_to_hsl (1 : ℚ) 0 0).2.2 ≤ 1) ∧
     (∀ (cfg : AdjustConfig ℚ) (wr wb h s l : ℚ),
       (0 ≤ (adjustPixel cfg wr wb h s l).1 ∧ (adjustPixel cfg wr wb h s l).1 < 360) ∧
       (0 ≤ (adjustPixel cfg wr wb h s l).2.1 ∧ (adjustPixel cfg wr wb h s l).2.1 ≤ 1) ∧
       (0 ≤ (adjustPixel cfg wr wb h s l).2.2 ∧ (adjustPixel cfg wr wb h s l).2.2 ≤ 1))) :=
  ⟨by norm_num, C8_hsl_invariants 1 0 0 (by norm_num) (by norm_num) (by norm_num) (by norm_num)
    (by norm_num) (by norm_num)⟩

/-! ### Tie behaviour and the zero-weight frame property -/

lemma adjustPixel_tie (cfg : AdjustConfig α) (w h s l : α) :
    adjustPixel cfg w w h s l =
      (pymod (h + (cfg.blue_mix_hue_deg - h) * clip (w + w) 0 1 *
          (cfg.max_hue_shift_deg / 360)) 360,
       clip (s + clip (w + w) 0 1 * cfg.max_saturation_adjust * (-1)) 0 1,
       clip (l + clip (w + w) 0 1 * cfg.max_lightness_adjust * (-1)) 0 1) := by
  simp only [adjustPixel, gt_iff_lt, lt_irrefl, if_false]

/-- Claim C2 (amended): at a pixel where the two influence weights are
EXACTLY equal the strict comparison of line 102/107/108 fails, so the
dominant focus is the SECOND-registered (blue) focus: the target hue is the
blue target hue and the saturation/lightness sign is -1, not +1. -/
theorem C2_tie_blue_wins (cfg : AdjustConfig ℚ) (w h s l : ℚ) :
    adjustPixel cfg w w h s l =
      (pymod (h + (cfg.blue_mix_hue_deg - h) * clip (w + w) 0 1 *
          (cfg.max_hue_shift_deg / 360)) 360,
       clip (s + clip (w + w) 0 1 * cfg.max_saturation_adjust * (-1)) 0 1,
       clip (l + clip (w + w) 0 1 * cfg.max_lightness_adjust * (-1)) 0 1) :=
  adjustPixel_tie cfg w h s l

/-- Claim C9: a pixel at which both influence weights are zero and whose
HSL triple satisfies the pixel invariants (hue in 0..360 exclusive above,
saturation and lightness in the unit interval) is left exactly unchanged by
the adjustment stage. -/
theorem C9_zero_weights_identity (cfg : AdjustConfig ℚ) (h s l : ℚ) (hh0 : 0 ≤ h)
    (hh1 : h < 360) (hs0 : 0 ≤ s) (hs1 : s ≤ 1) (hl0 : 0 ≤ l) (hl1 : l ≤ 1) :
    adjustPixel cfg 0 0 h s l = (h, s, l) := by
  have htot : clip ((0 : ℚ) + 0) 0 1 = 0 := by
    rw [show (0 : ℚ) + 0 = 0 by norm_num]
    exact clip_of_mem 0 0 1 le_rfl (by norm_num)
  simp only [adjustPixel, gt_iff_lt, lt_irrefl, if_false, htot]
  rw [show h + (cfg.blue_mix_hue_deg - h) * 0 * (cfg.max_hue_shift_deg / 360) = h by ring,
    pymod_self_of h 360 (by norm_num) hh0 hh1,
    show s + 0 * cfg.max_saturation_adjust * (-1) = s by ring, clip_of_mem s 0 1 hs0 hs1,
    show l + 0 * cfg.max_lightness_adjust * (-1) = l by ring, clip_of_mem l 0 1 hl0 hl1]

/-- Witness for C9 at a concrete interior HSL triple. -/
theorem C9_zero_weights_identity_witness :
    ((0 : ℚ) ≤ 90 ∧ (90 : ℚ) < 360 ∧ (0 : ℚ) ≤ 1 / 2 ∧ (1 / 2 : ℚ) ≤ 1 ∧
      (0 : ℚ) ≤ 1 / 4 ∧ (1 / 4 : ℚ) ≤ 1) ∧
    adjustPixel cfgQ 0 0 90 (1 / 2) (1 / 4) = (90, 1 / 2, 1 / 4) :=
  ⟨by norm_num, C9_zero_weights_identity cfgQ 90 (1 / 2) (1 / 4) (by norm_num) (by norm_num)
    (by norm_num) (by norm_num) (by norm_num) (by norm_num)⟩

/-! ### Weight-field evaluation helpers over the reals -/

lemma clip_mono (v1 v2 lo hi : α) (h : v1 ≤ v2) : clip v1 lo hi ≤ clip v2 lo hi :=
  min_le_min (max_le_max h le_rfl) le_rfl

lemma sqrt_eval (a b : ℝ) (hb : 0 ≤ b) (h : a = b ^ 2) : Real.sqrt a = b := by
  rw [h]
  exact Real.sqrt_sq hb

lemma euclidDist_self (x y : ℤ) : euclidDist x y x y = 0 := by
  unfold euclidDist
  apply sqrt_eval _ _ le_rfl
  push_cast
  ring

lemma euclidDist_1000 : euclidDist 1 0 0 0 = 1 := by
  unfold euclidDist
  apply sqrt_eval _ _ (by norm_num)
  push_cast
  norm_num

lemma euclidDist_1020 : euclidDist 1 0 2 0 = 1 := by
  unfold euclidDist
  apply sqrt_eval _ _ (by norm_num)
  push_cast
  norm_num

lemma euclidDist_0033_ge : (4 : ℝ) ≤ euclidDist 0 0 3 3 := by
  unfold euclidDist
  rw [show (4 : ℝ) = Real.sqrt 16 from (sqrt_eval 16 4 (by norm_num) (by norm_num)).symm]
  apply Real.sqrt_le_sqrt
  push_cast
  norm_num

lemma influenceWeight_center (x y : ℤ) (R : ℝ) : influenceWeight x y x y R = 1 := by
  unfold influenceWeight weightOfDist
  rw [euclidDist_self, zero_div, sub_zero]
  exact clip_of_mem 1 0 1 (by norm_num) le_rfl

lemma influenceWeight_of_far (x y cx cy : ℤ) (R : ℝ) (hR : 0 < R)
    (h : R ≤ euclidDist x y cx cy) : influenceWeight x y cx cy R = 0 := by
  unfold influenceWeight weightOfDist
  have h2 : (1 : ℝ) - euclidDist x y cx cy / R ≤ 0 := by
    rw [sub_nonpos, le_div_iff hR]
    nlinarith
  exact clip_of_le _ 0 1 h2 (by norm_num)

lemma influenceWeight_neg_radius (x y cx cy : ℤ) (R : ℝ) (hR : R < 0) :
    influenceWeight x y cx cy R = 1 := by
  unfold influenceWeight weightOfDist
  have hd : 0 ≤ euclidDist x y cx cy := Real.sqrt_nonneg _
  have hdiv : euclidDist x y cx cy / R ≤ 0 := div_nonpos_iff.mpr (Or.inl ⟨hd, hR.le⟩)
  exact clip_of_ge _ 0 1 (by linarith) (by norm_num)

lemma influenceWeight_1000 : influenceWeight 1 0 0 0 2 = 1 / 2 := by
  unfold influenceWeight weightOfDist
  rw [euclidDist_1000, show (1 : ℝ) - 1 / 2 = 1 / 2 by norm_num]
  exact clip_of_mem _ 0 1 (by norm_num) (by norm_num)

lemma influenceWeight_1020 : influenceWeight 1 0 2 0 2 = 1 / 2 := by
  unfold influenceWeight weightOfDist
  rw [euclidDist_1020, show (1 : ℝ) - 1 / 2 = 1 / 2 by norm_num]
  exact clip_of_mem _ 0 1 (by norm_num) (by norm_num)

lemma adjustPixel_red (cfg : AdjustConfig α) (wr wb h s l : α) (hw : wb < wr) :
    adjustPixel cfg wr wb h s l =
      (pymod (h + (cfg.red_mix_hue_deg - h) * clip (wr + wb) 0 1 *
          (cfg.max_hue_shift_deg / 360)) 360,
       clip (s + clip (wr + wb) 0 1 * cfg.max_saturation_adjust * 1) 0 1,
       clip (l + clip (wr + wb) 0 1 * cfg.max_lightness_adjust * 1) 0 1) := by
  simp only [adjustPixel, gt_iff_lt, if_pos hw]

/-! ### Claims about the weight field and the scenario -/

/-- Claim C7: the influence weight is exactly the clamp of
`1 - distance / radius` to the unit interval; it is 1 at the focus center,
0 at any pixel at distance at least the radius, and non-increasing in the
distance. -/
theorem C7_weight_formula_and_monotone (cx cy : ℤ) (R : ℝ) (hR : 0 < R) :
    (∀ x y : ℤ, influenceWeight x y cx cy R = clip (1 - euclidDist x y cx cy / R) 0 1) ∧
    influenceWeight cx cy cx cy R = 1 ∧
    (∀ x y : ℤ, R ≤ euclidDist x y cx cy → influenceWeight x y cx cy R = 0) ∧
    (∀ d1 d2 : ℝ, 0 ≤ d1 → d1 ≤ d2 → weightOfDist d2 R ≤ weightOfDist d1 R) := by
  refine ⟨fun x y => rfl, influenceWeight_center cx cy R,
    fun x y h => influenceWeight_of_far x y cx cy R hR h, ?_⟩
  intro d1 d2 h0 h12
  unfold weightOfDist
  apply clip_mono
  have hdiv : d1 / R ≤ d2 / R := (div_le_div_right hR).mpr h12
  linarith

/-- Witness for C7 with a focus at the origin and radius 5. -/
theorem C7_weight_formula_and_monotone_witness :
    ((0 : ℝ) < 5) ∧
    ((∀ x y : ℤ, influenceWeight x y 0 0 5 = clip (1 - euclidDist x y 0 0 / 5) 0 1) ∧
     influenceWeight 0 0 0 0 5 = 1 ∧
     (∀ x y : ℤ, 5 ≤ euclidDist x y 0 0 → influenceWeight x y 0 0 5 = 0) ∧
     (∀ d1 d2 : ℝ, 0 ≤ d1 → d1 ≤ d2 → weightOfDist d2 5 ≤ weightOfDist d1 5)) :=
  ⟨by norm_num, C7_weight_formula_and_monotone 0 0 5 (by norm_num)⟩

/-- Claim C3 (amended): the code performs NO configuration validation; an
invalid radius is silently accepted, and with any radius below zero every
pixel receives full influence weight 1 and processing proceeds. -/
theorem C3_invalid_radius_not_rejected (x y cx cy : ℤ) (R : ℝ) (hR : R < 0) :
    influenceWeight x y cx cy R = 1 :=
  influenceWeight_neg_radius x y cx cy R hR

/-- Witness for C3 (amended): radius -1, pixel at distance 5. -/
theorem C3_invalid_radius_not_rejected_witness :
    ((-1 : ℝ) < 0) ∧ influenceWeight 0 0 3 4 (-1) = 1 :=
  ⟨by norm_num, C3_invalid_radius_not_rejected 0 0 3 4 (-1) (by norm_num)⟩

/-- Counterexample for C3: with the invalid radius -1 no error occurs: the
weight field is computed (value 1 everywhere) and the per-pixel adjustment
produces a definite output value, so pixel processing does happen. -/
theorem C3_cex_processing_proceeds :
    influenceWeight 0 0 0 0 (-1) = 1 ∧
    influenceWeight 0 0 3 4 (-1) = 1 ∧
    adjustAt cfgR 0 0 3 4 (-1) 0 0 0 0 (1 / 2) = (20, 0, 2 / 5) := by
  have hwr : influenceWeight 0 0 0 0 (-1) = 1 :=
    influenceWeight_neg_radius 0 0 0 0 (-1) (by norm_num)
  have hwb : influenceWeight 0 0 3 4 (-1) = 1 :=
    influenceWeight_neg_radius 0 0 3 4 (-1) (by norm_num)
  refine ⟨hwr, hwb, ?_⟩
  unfold adjustAt
  rw [hwr, hwb, adjustPixel_tie]
  simp only [cfgR]
  have htot : clip ((1 : ℝ) + 1) 0 1 = 1 := clip_of_ge _ 0 1 (by norm_num) (by norm_num)
  rw [htot, show (0 : ℝ) + (240 - 0) * 1 * (30 / 360) = 20 by norm_num,
    pymod_self_of (20 : ℝ) 360 (by norm_num) (by norm_num) (by norm_num),
    show (0 : ℝ) + 1 * (1 / 5) * (-1) = -(1 / 5) by norm_num,
    clip_of_le (-(1 / 5) : ℝ) 0 1 (by norm_num) (by norm_num),
    show (1 : ℝ) / 2 + 1 * (1 / 10) * (-1) = 2 / 5 by norm_num,
    clip_of_mem ((2 : ℝ) / 5) 0 1 (by norm_num) (by norm_num)]

/-- Counterexample for C2: at pixel (1,0) the weights of the foci at (0,0)
and (2,0) with radius 2 are exactly equal, and the adjusted pixel is NOT the
value the claim predicts (red target hue 10 with sign +1): the code uses the
blue target hue 240 and sign -1 instead. -/
theorem C2_cex_tie_goes_to_blue :
    influenceWeight 1 0 0 0 2 = influenceWeight 1 0 2 0 2 ∧
    adjustAt cfgTie 0 0 2 0 2 1 0 0 (1 / 2) (1 / 2) = (20, 3 / 10, 2 / 5) ∧
    adjustAt cfgTie 0 0 2 0 2 1 0 0 (1 / 2) (1 / 2) ≠
      (pymod ((0 : ℝ) + (cfgTie.red_mix_hue_deg - 0) *
          clip (influenceWeight 1 0 0 0 2 + influenceWeight 1 0 2 0 2) 0 1 *
          (cfgTie.max_hue_shift_deg / 360)) 360,
       clip (1 / 2 + clip (influenceWeight 1 0 0 0 2 + influenceWeight 1 0 2 0 2) 0 1 *
          cfgTie.max_saturation_adjust * 1) 0 1,
       clip (1 / 2 + clip (influenceWeight 1 0 0 0 2 + influenceWeight 1 0 2 0 2) 0 1 *
          cfgTie.max_lightness_adjust * 1) 0 1) := by
  have hwa := influenceWeight_1000
  have hwb := influenceWeight_1020
  have htot : clip ((1 : ℝ) / 2 + 1 / 2) 0 1 = 1 := by
    rw [show (1 : ℝ) / 2 + 1 / 2 = 1 by norm_num]
    exact clip_of_mem 1 0 1 (by norm_num) le_rfl
  have hL : adjustAt cfgTie 0 0 2 0 2 1 0 0 (1 / 2) (1 / 2) = (20, 3 / 10, 2 / 5) := by
    unfold adjustAt
    rw [hwa, hwb, adjustPixel_tie]
    simp only [cfgTie]
    rw [htot, show (0 : ℝ) + (240 - 0) * 1 * (30 / 360) = 20 by norm_num,
      pymod_self_of (20 : ℝ) 360 (by norm_num) (by norm_num) (by norm_num),
      show (1 : ℝ) / 2 + 1 * (1 / 5) * (-1) = 3 / 10 by norm_num,
      clip_of_mem ((3 : ℝ) / 10) 0 1 (by norm_num) (by norm_num),
      show (1 : ℝ) / 2 + 1 * (1 / 10) * (-1) = 2 / 5 by norm_num,
      clip_of_mem ((2 : ℝ) / 5) 0 1 (by norm_num) (by norm_num)]
  have hR2 : (pymod ((0 : ℝ) + (cfgTie.red_mix_hue_deg - 0) *
          clip (influenceWeight 1 0 0 0 2 + influenceWeight 1 0 2 0 2) 0 1 *
          (cfgTie.max_hue_shift_deg / 360)) 360,
       clip (1 / 2 + clip (influenceWeight 1 0 0 0 2 + influenceWeight 1 0 2 0 2) 0 1 *
          cfgTie.max_saturation_adjust * 1) 0 1,
       clip (1 / 2 + clip (influenceWeight 1 0 0 0 2 + influenceWeight 1 0 2 0 2) 0 1 *
          cfgTie.max_lightness_adjust * 1) 0 1) = ((5 : ℝ) / 6, 7 / 10, 3 / 5) := by
    rw [hwa, hwb]
    simp only [cfgTie]
    rw [htot, show (0 : ℝ) + (10 - 0) * 1 * (30 / 360) = 5 / 6 by norm_num,
      pymod_self_of ((5 : ℝ) / 6) 360 (by norm_num) (by norm_num) (by norm_num),
      show (1 : ℝ) / 2 + 1 * (1 / 5) * 1 = 7 / 10 by norm_num,
      clip_of_mem ((7 : ℝ) / 10) 0 1 (by norm_num) (by norm_num),
      show (1 : ℝ) / 2 + 1 * (1 / 10) * 1 = 3 / 5 by norm_num,
      clip_of_mem ((3 : ℝ) / 5) 0 1 (by norm_num) (by norm_num)]
  refine ⟨by rw [hwa, hwb], hL, ?_⟩
  rw [hL, hR2]
  intro he
  have h1 : (20 : ℝ) = 5 / 6 := congrArg Prod.fst he
  norm_num at h1

/-- Claim C5 (amended): in the spec scenario (gray 4x4 image, red focus at
pixel (0,0), blue focus at pixel (3,3), radius 4): at pixel (0,0) the red
weight is 1, the BLUE weight is 0 (not about 0.19: the distance is the
square root of 18, which exceeds the radius 4), the clipped total is exactly
1, the dominant focus is red, and the adjusted pixel is hue 0, saturation
0.2, lightness 0.6. -/
theorem C5_scenario_values :
    influenceWeight 0 0 0 0 4 = 1 ∧
    influenceWeight 0 0 3 3 4 = 0 ∧
    clip (influenceWeight 0 0 0 0 4 + influenceWeight 0 0 3 3 4) 0 1 = 1 ∧
    influenceWeight 0 0 3 3 4 < influenceWeight 0 0 0 0 4 ∧
    rgb_to_hsl ((1 : ℝ) / 2) (1 / 2) (1 / 2) = (0, 0, 1 / 2) ∧
    adjustAt cfgR 0 0 3 3 4 0 0 0 0 (1 / 2) = (0, 1 / 5, 3 / 5) := by
  have hwr : influenceWeight 0 0 0 0 4 = 1 := influenceWeight_center 0 0 4
  have hwb : influenceWeight 0 0 3 3 4 = 0 :=
    influenceWeight_of_far 0 0 3 3 4 (by norm_num) euclidDist_0033_ge
  have htot : clip ((1 : ℝ) + 0) 0 1 = 1 := by
    rw [show (1 : ℝ) + 0 = 1 by norm_num]
    exact clip_of_mem 1 0 1 (by norm_num) le_rfl
  refine ⟨hwr, hwb, by rw [hwr, hwb]; exact htot, by rw [hwr, hwb]; norm_num, ?_, ?_⟩
  · norm_num [rgb_to_hsl]
  · unfold adjustAt
    rw [hwr, hwb, adjustPixel_red cfgR 1 0 0 0 (1 / 2) (by norm_num)]
    simp only [cfgR]
    rw [htot, show (0 : ℝ) + (0 - 0) * 1 * (30 / 360) = 0 by norm_num,
      pymod_self_of (0 : ℝ) 360 (by norm_num) (by norm_num) (by norm_num),
      show (0 : ℝ) + 1 * (1 / 5) * 1 = 1 / 5 by norm_num,
      clip_of_mem ((1 : ℝ) / 5) 0 1 (by norm_num) (by norm_num),
      show (1 : ℝ) / 2 + 1 * (1 / 10) * 1 = 3 / 5 by norm_num,
      clip_of_mem ((3 : ℝ) / 5) 0 1 (by norm_num) (by norm_num)]

/-- Counterexample for C5: the blue weight at pixel (0,0) is 0, not about
0.19 as the claim states (it is off by far more than any rounding slack). -/
theorem C5_cex_blue_weight_not_019 :
    influenceWeight 0 0 3 3 4 = 0 ∧
    ¬ (|influenceWeight 0 0 3 3 4 - 19 / 100| ≤ 5 / 100) := by
  have hwb : influenceWeight 0 0 3 3 4 = 0 :=
    influenceWeight_of_far 0 0 3 3 4 (by norm_num) euclidDist_0033_ge
  refine ⟨hwb, ?_⟩
  rw [hwb, show (0 : ℝ) - 19 / 100 = -(19 / 100) by norm_num, abs_neg,
    abs_of_nonneg (by norm_num : (0 : ℝ) ≤ 19 / 100)]
  norm_num
